import Mathlib

/-!
Verification of the Astro-Log-Sentiment pipeline.

Shallow embedding of the core components of the repository:
chunking and score aggregation (src/analysis/runner.py), the per-chunk
analyzers' result construction (src/analysis/sentiment.py,
src/analysis/emotion.py), the dedup/idempotency database layer
(src/data/db.py), the blog-scrape checkpoint (src/scraping/iss_blog_scraper.py)
and the oral-history transcript segmenter
(src/scraping/oral_history_scraper.py).

Modelling conventions:
- Python floats are modelled as exact rationals (ℚ).
- Python dicts with statically known keys are modelled as ordered
  association lists, preserving insertion order, since Python's
  `max(d, key=d.get)` iterates keys in insertion order.
- Fallible Python code (ZeroDivisionError, JSONDecodeError, analyzer
  exceptions caught by try/except) is modelled with `Option`.
- `datetime.utcnow()` is modelled by an explicit `now : Nat` argument.
- The tokenizer oracle is abstracted as the identity on token sequences:
  a text is represented by its token id list, `encode` and `decode` are
  the identity.  Token-range claims are unaffected by this abstraction.
-/

/-- Result record of src/data/models.py `SentimentResult` (scores as ℚ,
`analyzed_at` as an abstract timestamp). -/
structure SentimentResult where
  source_type : String
  source_id : Nat
  label : String
  positive_score : ℚ
  negative_score : ℚ
  neutral_score : ℚ
  model_name : String
  analyzed_at : Nat
deriving DecidableEq

/-- Result record of src/data/models.py `EmotionResult`. -/
structure EmotionResult where
  source_type : String
  source_id : Nat
  anger_score : ℚ
  disgust_score : ℚ
  fear_score : ℚ
  joy_score : ℚ
  neutral_score : ℚ
  sadness_score : ℚ
  surprise_score : ℚ
  dominant_emotion : String
  model_name : String
  analyzed_at : Nat
deriving DecidableEq

/-- One step of Python's `max` fold: the running maximum is replaced only
when the new value is strictly greater, so the first maximal element wins. -/
def pyMaxStep (b y : String × ℚ) : String × ℚ :=
  if b.2 < y.2 then y else b

/-- Python's `max(iterable, key=...)` over a nonempty association list. -/
def pyMaxFold (x : String × ℚ) (xs : List (String × ℚ)) : String × ℚ :=
  xs.foldl pyMaxStep x

/-- Key selected by Python's `max(scores, key=scores.get)` where `scores`
is a dict listed in insertion order. -/
def pyMaxKey (x : String × ℚ) (xs : List (String × ℚ)) : String :=
  (pyMaxFold x xs).1

/-- src/analysis/runner.py `aggregate_sentiment`.  `none` models the
ZeroDivisionError raised on an empty result list (`n = len(results)` is 0). -/
def aggregate_sentiment (results : List SentimentResult) (source_type : String)
    (source_id : Nat) (model_name : String) (now : Nat) : Option SentimentResult :=
  match results with
  | [] => none
  | _ :: _ =>
    let n : ℚ := results.length
    let pos := (results.map (fun r => r.positive_score)).sum / n
    let neg := (results.map (fun r => r.negative_score)).sum / n
    let neu := (results.map (fun r => r.neutral_score)).sum / n
    let label := pyMaxKey ("positive", pos) [("negative", neg), ("neutral", neu)]
    some { source_type := source_type, source_id := source_id, label := label,
           positive_score := pos, negative_score := neg, neutral_score := neu,
           model_name := model_name, analyzed_at := now }

/-- src/analysis/runner.py `aggregate_emotions`.  The means dict is built
by iterating the fixed label list, so its insertion order is that list. -/
def aggregate_emotions (results : List EmotionResult) (source_type : String)
    (source_id : Nat) (model_name : String) (now : Nat) : Option EmotionResult :=
  match results with
  | [] => none
  | _ :: _ =>
    let n : ℚ := results.length
    let anger := (results.map (fun r => r.anger_score)).sum / n
    let disgust := (results.map (fun r => r.disgust_score)).sum / n
    let fear := (results.map (fun r => r.fear_score)).sum / n
    let joy := (results.map (fun r => r.joy_score)).sum / n
    let neutral := (results.map (fun r => r.neutral_score)).sum / n
    let sadness := (results.map (fun r => r.sadness_score)).sum / n
    let surprise := (results.map (fun r => r.surprise_score)).sum / n
    let dominant := pyMaxKey ("anger", anger)
      [("disgust", disgust), ("fear", fear), ("joy", joy),
       ("neutral", neutral), ("sadness", sadness), ("surprise", surprise)]
    some { source_type := source_type, source_id := source_id,
           anger_score := anger, disgust_score := disgust, fear_score := fear,
           joy_score := joy, neutral_score := neutral, sadness_score := sadness,
           surprise_score := surprise, dominant_emotion := dominant,
           model_name := model_name, analyzed_at := now }

/-- Chunk-result selection in src/analysis/runner.py `_analyze_rows`
(sentiment block): a single chunk result is passed through unchanged,
otherwise the list is aggregated. -/
def selectSentimentResult (chunk_results : List SentimentResult)
    (source_type : String) (source_id : Nat) (model_name : String) (now : Nat) :
    Option SentimentResult :=
  if chunk_results.length = 1 then chunk_results.head?
  else aggregate_sentiment chunk_results source_type source_id model_name now

/-- Chunk-result selection in src/analysis/runner.py `_analyze_rows`
(emotion block). -/
def selectEmotionResult (chunk_results : List EmotionResult)
    (source_type : String) (source_id : Nat) (model_name : String) (now : Nat) :
    Option EmotionResult :=
  if chunk_results.length = 1 then chunk_results.head?
  else aggregate_emotions chunk_results source_type source_id model_name now

/-- Specification-side predicate: `p` is an element of `l` with maximal
value, and every element listed before it has a strictly smaller value
(highest score wins, ties broken by declared order). -/
def IsFirstMax (l : List (String × ℚ)) (p : String × ℚ) : Prop :=
  (∀ q ∈ l, q.2 ≤ p.2) ∧ ∃ l1 l2, l = l1 ++ p :: l2 ∧ ∀ q ∈ l1, q.2 < p.2

/-- Python `range(0, stop, step)` as the list of window start offsets
(src/analysis/runner.py `chunk_text`, for-loop header).  Python raises
ValueError for `step = 0`; that case is unreachable in `chunk_text`
because `overlap < max_tokens` at every call site, and is modelled by
the empty list. -/
def pythonRangeStarts (stop step : Nat) : List Nat :=
  if step = 0 then [] else List.range' 0 ((stop + step - 1) / step) step

/-- Body of the window loop in src/analysis/runner.py `chunk_text`:
for each `start`, `end = min(start + max_tokens, n)`; the `(start, end)`
token range is emitted, and the loop breaks once `end` reaches `n`. -/
def chunkLoop (n max_tokens : Nat) : List Nat → List (Nat × Nat)
  | [] => []
  | start :: rest =>
    let e := min (start + max_tokens) n
    if e = n then [(start, e)] else (start, e) :: chunkLoop n max_tokens rest

/-- Token ranges of the chunks produced by `chunk_text` on a text of
`n` tokens (the slice bounds `token_ids[start:end]` of each iteration). -/
def chunk_ranges (n max_tokens overlap : Nat) : List (Nat × Nat) :=
  chunkLoop n max_tokens (pythonRangeStarts n (max_tokens - overlap))

/-- src/analysis/runner.py `chunk_text`, with the tokenizer abstracted as
the identity oracle: the text is its token id list, and each chunk is the
decoded slice `token_ids[start:end]`. -/
def chunk_text (token_ids : List Nat) (max_tokens overlap : Nat) : List (List Nat) :=
  if token_ids.length ≤ max_tokens then [token_ids]
  else (chunk_ranges token_ids.length max_tokens overlap).map
    (fun p => (token_ids.drop p.1).take (p.2 - p.1))

/-- Row of the `blog_posts` / `oral_histories` source tables restricted to
the columns the analysis pipeline reads (`id`, `speaker`, `word_count`,
`text`).  Blog rows have no speaker column; the field is simply unused for
them. -/
structure SourceRow where
  id : Nat
  speaker : String
  word_count : Nat
  text : String
deriving DecidableEq

/-- Row of the `linguistic_features` table restricted to its uniqueness
key `(source_type, source_id)`; the feature columns are computed by the
out-of-scope linguistic analyzer and play no role in the claims. -/
structure LinguisticRow where
  source_type : String
  source_id : Nat
deriving DecidableEq

/-- The three analysis-result tables of src/data/db.py (`SCHEMA_SQL`).
The source tables are passed separately to queries, as in the code. -/
structure Db where
  sentiment_results : List SentimentResult
  emotion_results : List EmotionResult
  linguistic_features : List LinguisticRow
deriving DecidableEq

/-- Uniqueness key of `sentiment_results`:
UNIQUE(source_type, source_id, model_name). -/
def sentimentKey (r : SentimentResult) : String × Nat × String :=
  (r.source_type, r.source_id, r.model_name)

/-- Uniqueness key of `emotion_results`. -/
def emotionKey (r : EmotionResult) : String × Nat × String :=
  (r.source_type, r.source_id, r.model_name)

/-- src/data/db.py `insert_sentiment`: INSERT OR IGNORE under
UNIQUE(source_type, source_id, model_name) — a row whose key already
exists is silently dropped, otherwise it is appended. -/
def Db.insert_sentiment (db : Db) (r : SentimentResult) : Db :=
  if db.sentiment_results.any (fun a => sentimentKey a == sentimentKey r) then db
  else { db with sentiment_results := db.sentiment_results ++ [r] }

/-- src/data/db.py `insert_emotion`: INSERT OR IGNORE under the same key. -/
def Db.insert_emotion (db : Db) (r : EmotionResult) : Db :=
  if db.emotion_results.any (fun a => emotionKey a == emotionKey r) then db
  else { db with emotion_results := db.emotion_results ++ [r] }

/-- src/data/db.py `insert_linguistic`: INSERT OR IGNORE under
UNIQUE(source_type, source_id). -/
def Db.insert_linguistic (db : Db) (r : LinguisticRow) : Db :=
  if db.linguistic_features.any (fun a => a == r) then db
  else { db with linguistic_features := db.linguistic_features ++ [r] }

/-- src/data/db.py `get_unanalyzed` (model_name given and truthy): the
LEFT JOIN of the source table against the analysis table on
`(source_type, source_id, model_name)` with `WHERE a.id IS NULL`, i.e.
the source rows having no matching analysis row.  `analysis` is the list
of uniqueness keys of the analysis table.  (The `model_name=None`
variant, used only for `linguistic_features`, drops the model conjunct
and is not needed by the claims.) -/
def get_unanalyzed (sources : List SourceRow)
    (analysis : List (String × Nat × String))
    (source_type : String) (model_name : String) : List SourceRow :=
  sources.filter (fun s =>
    ! analysis.any (fun a => a.1 == source_type && a.2.1 == s.id && a.2.2 == model_name))

/-- On-disk content of the blog-scrape checkpoint file
(src/scraping/iss_blog_scraper.py).  `empty` is the transient state left
by `open(path, "w")`, which truncates the file before `json.dump` has
written anything; it is not valid JSON. -/
inductive CheckpointFile where
  | empty : CheckpointFile
  | json : Nat → List String → Nat → Nat → CheckpointFile
deriving DecidableEq

/-- src/scraping/iss_blog_scraper.py `_load_checkpoint`: a missing file
yields the fresh default checkpoint (cursor 0, no visited URLs); a
truncated file makes `json.load` raise JSONDecodeError (`none`); a
complete file is parsed back exactly. -/
def _load_checkpoint (file : Option CheckpointFile) (now : Nat) :
    Option (Nat × List String × Nat × Nat) :=
  match file with
  | none => some (0, [], now, now)
  | some CheckpointFile.empty => none
  | some (CheckpointFile.json cursor visited started updated) =>
    some (cursor, visited, started, updated)

/-- src/scraping/iss_blog_scraper.py `_save_checkpoint`, as the trace of
on-disk states it can leave behind: the original file (crash before the
write), the truncated file (crash between `open(path, "w")` and the
completion of `json.dump`), and the complete new checkpoint with
`updated_at` stamped to now. -/
def _save_checkpoint (file : Option CheckpointFile)
    (cursor : Nat) (visited : List String) (started : Nat) (now : Nat) :
    List (Option CheckpointFile) :=
  [file, some CheckpointFile.empty,
    some (CheckpointFile.json cursor visited started now)]

/-- Python whitespace class `\s` (ASCII range, which is all that occurs
in the claims): space, tab, newline, carriage return, vertical tab,
form feed. -/
def pySpace (c : Char) : Bool :=
  c == ' ' || c == '\t' || c == '\n' || c == '\r' ||
    c == Char.ofNat 11 || c == Char.ofNat 12

/-- Python `str.strip()` (ASCII whitespace). -/
def pyStrip (l : List Char) : List Char :=
  ((l.dropWhile pySpace).reverse.dropWhile pySpace).reverse

/-- Python `str.upper()` on ASCII. -/
def pyUpperChar (c : Char) : Char :=
  if 'a' ≤ c && c ≤ 'z' then Char.ofNat (c.toNat - 32) else c

def pyUpper (l : List Char) : List Char := l.map pyUpperChar

/-- Python `re.sub(r"\s+", " ", s)`: every maximal run of whitespace is
replaced by a single space.  The flag records whether the previous
character belonged to a whitespace run. -/
def collapseWSAux (prevSpace : Bool) : List Char → List Char
  | [] => []
  | c :: cs =>
    if pySpace c then
      if prevSpace then collapseWSAux true cs
      else ' ' :: collapseWSAux true cs
    else c :: collapseWSAux false cs

def collapseWS (l : List Char) : List Char := collapseWSAux false l

/-- Character class `[A-Za-z\s.\-']` of the speaker-name pattern in
src/scraping/oral_history_scraper.py `split_segments`. -/
def nameClassChar (c : Char) : Bool :=
  c.isAlpha || pySpace c || c == '.' || c == '-' || c == Char.ofNat 39

/-- Scanner for the tail of the speaker pattern: consumes name-class
characters until the first colon.  `acc` holds the consumed characters
in reverse; a colon closes the match only if at least one character
beyond the initial capital was consumed (the `+?` of the pattern), and
`match.end()` then also consumes the following `\s*`. -/
def scanSpeaker (acc : List Char) : List Char → Option (List Char × List Char)
  | [] => none
  | c :: rest =>
    if c == ':' then
      if 2 ≤ acc.length then some (acc.reverse, rest.dropWhile pySpace)
      else none
    else if nameClassChar c then scanSpeaker (c :: acc) rest
    else none

/-- Python `re.match(r"^([A-Z][A-Za-z\s.\-']+?):\s*", line)`: returns the
captured speaker name (group 1) and the remainder of the line after
`match.end()`.  The name class excludes the colon, so the non-greedy
`+?` stops at the first colon whose prefix is all name-class characters. -/
def matchSpeaker (line : List Char) : Option (List Char × List Char) :=
  match line with
  | [] => none
  | c :: rest => if c.isUpper then scanSpeaker [c] rest else none

/-- Output segment of `split_segments`: the dict
with keys speaker ("interviewer" or "astronaut") and text. -/
structure Segment where
  speaker : String
  text : List Char
deriving DecidableEq

/-- Python's substring operator `in`: the pattern occurs contiguously. -/
def listContainsSub (pattern : List Char) : List Char → Bool
  | [] => pattern.isEmpty
  | x :: xs => pattern.isPrefixOf (x :: xs) || listContainsSub pattern xs

/-- The `interviewer_last_name.upper() in current_speaker.upper()` test. -/
def isInterviewerTurn (interviewer_last_name speaker : List Char) : Bool :=
  listContainsSub (pyUpper interviewer_last_name) (pyUpper speaker)

/-- Turn flush of `split_segments` (both the mid-loop flush and the final
flush run this identical code): join the buffered parts with spaces,
strip, collapse whitespace, and emit a segment only if the normalized
text exceeds 20 characters, classifying the speaker by the interviewer
surname test. -/
def flushTurn (interviewer_last_name : List Char)
    (current_speaker : Option (List Char)) (parts : List (List Char)) :
    Option Segment :=
  match current_speaker with
  | none => none
  | some sp =>
    if parts.isEmpty then none
    else
      let segment_text := collapseWS (pyStrip (List.intercalate [' '] parts))
      if 20 < segment_text.length then
        some { speaker := if isInterviewerTurn interviewer_last_name sp
                          then "interviewer" else "astronaut",
               text := segment_text }
      else none

/-- Per-line loop of src/scraping/oral_history_scraper.py
`split_segments`: a speaker line flushes the open turn and opens a new
one (seeded with the remainder if it has non-whitespace content); a
non-blank ordinary line appends its stripped text to the buffer; end of
input flushes the open turn. -/
def segLoop (interviewer : List Char) :
    List (List Char) → Option (List Char) → List (List Char) → List Segment
  | [], current_speaker, parts =>
    (flushTurn interviewer current_speaker parts).toList
  | line :: rest, current_speaker, parts =>
    match matchSpeaker line with
    | some (name, remainder) =>
      (flushTurn interviewer current_speaker parts).toList ++
        segLoop interviewer rest (some (pyStrip name))
          (if (pyStrip remainder).isEmpty then [] else [remainder])
    | none =>
      if (pyStrip line).isEmpty then segLoop interviewer rest current_speaker parts
      else segLoop interviewer rest current_speaker (parts ++ [pyStrip line])

/-- Python `text.split("\n")` (keeps empty pieces). -/
def splitLines : List Char → List (List Char)
  | [] => [[]]
  | c :: rest =>
    if c == '\n' then [] :: splitLines rest
    else
      match splitLines rest with
      | [] => [[c]]
      | l :: ls => (c :: l) :: ls

/-- src/scraping/oral_history_scraper.py `split_segments`. -/
def split_segments (text : List Char) (interviewer_last_name : List Char) :
    List Segment :=
  segLoop interviewer_last_name (splitLines text) none []

/-- The seven emotion scores returned by the emotion scoring oracle. -/
structure Scores7 where
  anger : ℚ
  disgust : ℚ
  fear : ℚ
  joy : ℚ
  neutral : ℚ
  sadness : ℚ
  surprise : ℚ
deriving DecidableEq

/-- Tail of src/analysis/sentiment.py `analyze_text`: given the oracle
scores of one chunk, build the result record; the label is
`max(scores, key=scores.get)` over the dict built in the order
positive, negative, neutral. -/
def mkSentimentFromScores (p n u : ℚ) (source_type : String) (source_id : Nat)
    (model_name : String) (now : Nat) : SentimentResult :=
  { source_type := source_type, source_id := source_id,
    label := pyMaxKey ("positive", p) [("negative", n), ("neutral", u)],
    positive_score := p, negative_score := n, neutral_score := u,
    model_name := model_name, analyzed_at := now }

/-- Tail of src/analysis/emotion.py `analyze_text`: the scores dict is
built by iterating EMOTION_LABELS, so the dominant label is the first
maximal one in that order. -/
def mkEmotionFromScores (s : Scores7) (source_type : String) (source_id : Nat)
    (model_name : String) (now : Nat) : EmotionResult :=
  { source_type := source_type, source_id := source_id,
    anger_score := s.anger, disgust_score := s.disgust, fear_score := s.fear,
    joy_score := s.joy, neutral_score := s.neutral, sadness_score := s.sadness,
    surprise_score := s.surprise,
    dominant_emotion := pyMaxKey ("anger", s.anger)
      [("disgust", s.disgust), ("fear", s.fear), ("joy", s.joy),
       ("neutral", s.neutral), ("sadness", s.sadness), ("surprise", s.surprise)],
    model_name := model_name, analyzed_at := now }

/-- src/analysis/runner.py `MIN_WORDS_FOR_ANALYSIS`. -/
def MIN_WORDS_FOR_ANALYSIS : Nat := 10

/-- Sentiment block of src/analysis/runner.py `_analyze_rows` for one
row: chunk the text (call-site defaults max_tokens=400, overlap=100),
score each chunk via the oracle (`none` models an analyzer exception,
which the surrounding try/except turns into a skipped insert), pass a
single chunk result through or aggregate, and insert. -/
def sentimentStage (encode : String → List Nat)
    (sentOracle : List Nat → Option (ℚ × ℚ × ℚ))
    (sent_model : String) (now : Nat) (source_type : String)
    (db : Db) (row : SourceRow) : Db :=
  match (chunk_text (encode row.text) 400 100).mapM sentOracle with
  | none => db
  | some scores =>
    let chunk_results := scores.map
      (fun s => mkSentimentFromScores s.1 s.2.1 s.2.2 source_type row.id sent_model now)
    match selectSentimentResult chunk_results source_type row.id sent_model now with
    | none => db
    | some result => db.insert_sentiment result

/-- Emotion block of `_analyze_rows` for one row. -/
def emotionStage (encode : String → List Nat)
    (emoOracle : List Nat → Option Scores7)
    (emo_model : String) (now : Nat) (source_type : String)
    (db : Db) (row : SourceRow) : Db :=
  match (chunk_text (encode row.text) 400 100).mapM emoOracle with
  | none => db
  | some scores =>
    let chunk_results := scores.map
      (fun s => mkEmotionFromScores s source_type row.id emo_model now)
    match selectEmotionResult chunk_results source_type row.id emo_model now with
    | none => db
    | some result => db.insert_emotion result

/-- Linguistic block of `_analyze_rows` for one row: the feature values
are computed by the out-of-scope linguistic analyzer; `lingOk` is false
when it raises (insert skipped by the try/except). -/
def linguisticStage (lingOk : String → Bool) (source_type : String)
    (db : Db) (row : SourceRow) : Db :=
  if lingOk row.text then
    db.insert_linguistic { source_type := source_type, source_id := row.id }
  else db

/-- Loop body of src/analysis/runner.py `_analyze_rows` for one row:
rows under MIN_WORDS_FOR_ANALYSIS are skipped, then the three analysis
blocks run in order on the shared connection. -/
def analyze_row (encode : String → List Nat)
    (sentOracle : List Nat → Option (ℚ × ℚ × ℚ))
    (emoOracle : List Nat → Option Scores7)
    (lingOk : String → Bool)
    (sent_model emo_model : String) (now : Nat) (source_type : String)
    (db : Db) (row : SourceRow) : Db :=
  if row.word_count < MIN_WORDS_FOR_ANALYSIS then db
  else
    linguisticStage lingOk source_type
      (emotionStage encode emoOracle emo_model now source_type
        (sentimentStage encode sentOracle sent_model now source_type db row) row)
      row

/-- src/analysis/runner.py `_analyze_rows`: fold `analyze_row` over the
rows. -/
def analyze_rows (encode : String → List Nat)
    (sentOracle : List Nat → Option (ℚ × ℚ × ℚ))
    (emoOracle : List Nat → Option Scores7)
    (lingOk : String → Bool)
    (sent_model emo_model : String) (now : Nat)
    (rows : List SourceRow) (source_type : String) (db : Db) : Db :=
  rows.foldl
    (analyze_row encode sentOracle emoOracle lingOk sent_model emo_model now source_type)
    db

/-- Oral-history half of src/analysis/runner.py `run_analysis`
(lines 243-279): whatever unprocessed-row query produced `oh_rows`, the
list is filtered to astronaut segments only
(`oh_rows = [r for r in oh_rows if r["speaker"] == "astronaut"]`)
before `_analyze_rows` runs on it with source_type "oral_history". -/
def run_analysis_oral (encode : String → List Nat)
    (sentOracle : List Nat → Option (ℚ × ℚ × ℚ))
    (emoOracle : List Nat → Option Scores7)
    (lingOk : String → Bool)
    (sent_model emo_model : String) (now : Nat)
    (oh_rows : List SourceRow) (db : Db) : Db :=
  analyze_rows encode sentOracle emoOracle lingOk sent_model emo_model now
    (oh_rows.filter (fun r => r.speaker == "astronaut")) "oral_history" db

/-- Concrete rows used by witnesses. -/
def sentResultX : SentimentResult :=
  { source_type := "blog", source_id := 1, label := "positive",
    positive_score := 1, negative_score := 0, neutral_score := 0,
    model_name := "model-X", analyzed_at := 0 }

/-- First chunk result of the spec's aggregation example (scores 0.8/0.2
on the positive/negative labels). -/
def chunkRes1 : SentimentResult :=
  { source_type := "blog", source_id := 1, label := "positive",
    positive_score := 4/5, negative_score := 1/5, neutral_score := 0,
    model_name := "m", analyzed_at := 0 }

/-- Second chunk result of the spec's aggregation example (0.4/0.6). -/
def chunkRes2 : SentimentResult :=
  { source_type := "blog", source_id := 1, label := "negative",
    positive_score := 2/5, negative_score := 3/5, neutral_score := 0,
    model_name := "m", analyzed_at := 0 }

/-- A sentiment record whose stored label disagrees with its own scores. -/
def relabelInput : SentimentResult :=
  { source_type := "blog", source_id := 1, label := "negative",
    positive_score := 4/5, negative_score := 1/10, neutral_score := 1/10,
    model_name := "m", analyzed_at := 0 }

/-- The segmenter example input of the spec. -/
def sampleTranscript : List Char :=
  ("WRIGHT: Hi there, how are you doing today?" ++ "\n"
    ++ "WHITSON: I am doing well thank you for asking me.").toList

/-- A concrete flushed turn used by the C7 witness. -/
def interviewerSeg : Segment :=
  { speaker := "interviewer", text := ("Hello there my good friend").toList }

/-- Concrete source rows used by witnesses. -/
def blogRow1 : SourceRow := { id := 1, speaker := "", word_count := 50, text := "t1" }

def blogRow2 : SourceRow := { id := 2, speaker := "", word_count := 50, text := "t2" }

/-- Oracles and rows for the C10 witness: the scoring oracles fail (their
inserts are skipped), the linguistic analyzer succeeds, and the row list
holds one interviewer and one astronaut row. -/
def noneSentOracle : List Nat → Option (ℚ × ℚ × ℚ) := fun _ => none

def noneEmoOracle : List Nat → Option Scores7 := fun _ => none

def ohRowInterviewer : SourceRow :=
  { id := 1, speaker := "interviewer", word_count := 30, text := "q" }

def ohRowAstronaut : SourceRow :=
  { id := 2, speaker := "astronaut", word_count := 30, text := "a" }

lemma pyMaxFold_isFirstMax (x : String × ℚ) (xs : List (String × ℚ)) :
    IsFirstMax (x :: xs) (pyMaxFold x xs) := by
  induction xs generalizing x with
  | nil =>
    refine ⟨?_, [], [], rfl, ?_⟩ <;> simp [pyMaxFold]
  | cons y ys ih =>
    by_cases hxy : x.2 < y.2
    · have hfold : pyMaxFold x (y :: ys) = pyMaxFold y ys := by
        simp [pyMaxFold, pyMaxStep, hxy]
      rw [hfold]
      obtain ⟨hub, l1, l2, hdec, hlt⟩ := ih y
      have hyR : y.2 ≤ (pyMaxFold y ys).2 := hub y (by simp)
      constructor
      · intro q hq
        rcases List.mem_cons.mp hq with h1 | h1
        · subst h1; exact le_trans (le_of_lt hxy) hyR
        · exact hub q h1
      · refine ⟨x :: l1, l2, by rw [hdec]; rfl, ?_⟩
        intro q hq
        rcases List.mem_cons.mp hq with h1 | h1
        · subst h1
          -- y is either the selected element or listed before it
          rcases l1 with _ | ⟨a, l1'⟩
          · simp only [List.nil_append] at hdec
            have : y = pyMaxFold y ys := by
              have := congrArg (fun l => l.head?) hdec
              simpa using this
            rw [← this]; exact hxy
          · have ha : a = y := by
              have := congrArg (fun l => l.head?) hdec
              simpa using this.symm
            have := hlt a (by simp)
            rw [ha] at this
            exact lt_trans hxy this
        · exact hlt q h1
    · have hfold : pyMaxFold x (y :: ys) = pyMaxFold x ys := by
        simp [pyMaxFold, pyMaxStep, hxy]
      rw [hfold]
      obtain ⟨hub, l1, l2, hdec, hlt⟩ := ih x
      push_neg at hxy
      have hxR : x.2 ≤ (pyMaxFold x ys).2 := hub x (by simp)
      constructor
      · intro q hq
        rcases List.mem_cons.mp hq with h1 | h1
        · subst h1; exact hxR
        · rcases List.mem_cons.mp h1 with h2 | h2
          · subst h2; exact le_trans hxy hxR
          · exact hub q (by simp [h2])
      · rcases l1 with _ | ⟨a, l1'⟩
        · simp only [List.nil_append] at hdec
          have hx : x = pyMaxFold x ys := by
            have := congrArg (fun l => l.head?) hdec
            simpa using this
          refine ⟨[], y :: l2, ?_, by simp⟩
          rw [← hx] at hdec ⊢
          rw [List.nil_append]
          have : ys = l2 := by
            have := congrArg (fun l => l.tail) hdec
            simpa using this
          rw [this]
        · have ha : a = x := by
            have := congrArg (fun l => l.head?) hdec
            simpa using this.symm
          subst ha
          have htail : ys = l1' ++ pyMaxFold a ys :: l2 := by
            have := congrArg (fun l => l.tail) hdec
            simpa using this
          have haR : a.2 < (pyMaxFold a ys).2 := hlt a (by simp)
          refine ⟨a :: y :: l1', l2,
            by simp only [List.cons_append]; conv_lhs => rw [htail], ?_⟩
          intro q hq
          rcases List.mem_cons.mp hq with h1 | h1
          · subst h1; exact haR
          · rcases List.mem_cons.mp h1 with h2 | h2
            · subst h2; exact lt_of_le_of_lt hxy haR
            · exact hlt q (by simp [h2])

lemma pyMaxKey_isFirstMax (x : String × ℚ) (xs : List (String × ℚ)) :
    ∃ v, pyMaxKey x xs = (pyMaxFold x xs).1 ∧
      IsFirstMax (x :: xs) (pyMaxKey x xs, v) := by
  refine ⟨(pyMaxFold x xs).2, rfl, ?_⟩
  have h := pyMaxFold_isFirstMax x xs
  simpa [pyMaxKey] using h

lemma ceil_div_shift (x step : Nat) (hstep : 0 < step) (hx : 0 < x) :
    (x + step - 1) / step = (x - step + step - 1) / step + 1 := by
  rcases le_or_lt step x with h | h
  · have h1 : x - step + step - 1 = x - 1 := by omega
    have h2 : x + step - 1 = (x - 1) + step := by omega
    rw [h1, h2, Nat.add_div_right _ hstep]
  · have h1 : x - step + step - 1 = step - 1 := by omega
    have h2 : (step - 1) / step = 0 := Nat.div_eq_of_lt (by omega)
    rw [h1, h2]
    exact Nat.div_eq_of_lt_le (by omega) (by omega)

lemma chunkLoop_range' (n W step : Nat) (hstep : 0 < step) :
    ∀ (L s : Nat), 0 < L → n ≤ s + (L - 1) * step + W →
      chunkLoop n W (List.range' s L step) =
        (List.range ((n - W - s + step - 1) / step)).map
            (fun k => (s + k * step, s + k * step + W))
          ++ [(s + ((n - W - s + step - 1) / step) * step, n)] := by
  intro L
  induction L with
  | zero => intro s h0 _; exact absurd h0 (by omega)
  | succ L ih =>
    intro s _ hlast
    rw [List.range'_succ]
    by_cases hbreak : n ≤ s + W
    · have hK : (n - W - s + step - 1) / step = 0 := by
        have hx : n - W - s = 0 := by omega
        rw [hx]
        exact Nat.div_eq_of_lt (by omega)
      have hmin : min (s + W) n = n := min_eq_right hbreak
      simp [chunkLoop, hmin, hK]
    · push_neg at hbreak
      have hL : 0 < L := by
        rcases Nat.eq_zero_or_pos L with h | h
        · subst h; simp at hlast; omega
        · exact h
      have hmin : min (s + W) n = s + W := min_eq_left (le_of_lt hbreak)
      have hne : ¬ (s + W = n) := by omega
      have hLs : step + (L - 1) * step = L * step := by
        rcases L with _ | L'
        · omega
        · simp [Nat.succ_mul]; omega
      have hprem : n ≤ (s + step) + (L - 1) * step + W := by
        have h1 : s + (L + 1 - 1) * step + W = s + L * step + W := by simp
        rw [h1] at hlast
        omega
      have hIH := ih (s + step) hL hprem
      have hx : 0 < n - W - s := by omega
      have hsub : n - W - (s + step) = n - W - s - step := by omega
      rw [hsub] at hIH
      have hshift := ceil_div_shift (n - W - s) step hstep hx
      show (if min (s + W) n = n then [(s, min (s + W) n)]
        else (s, min (s + W) n) :: chunkLoop n W (List.range' (s + step) L step)) = _
      rw [hmin, if_neg hne, hIH, hshift]
      rw [List.range_succ_eq_map, List.map_cons, List.map_map]
      have hfun : ((fun k => (s + k * step, s + k * step + W)) ∘ Nat.succ)
          = fun k => (s + step + k * step, s + step + k * step + W) := by
        funext k
        simp only [Function.comp, Prod.mk.injEq, Nat.succ_mul]
        omega
      have hlastst : s + ((n - W - s - step + step - 1) / step + 1) * step
          = s + step + (n - W - s - step + step - 1) / step * step := by
        simp only [Nat.succ_mul]
        omega
      rw [hfun, hlastst]
      simp

lemma chunk_ranges_eq (n W O : Nat) (hO : O < W) (hW : W < n) :
    chunk_ranges n W O =
      (List.range ((n - W + (W - O) - 1) / (W - O))).map
          (fun k => (k * (W - O), k * (W - O) + W))
        ++ [(((n - W + (W - O) - 1) / (W - O)) * (W - O), n)] := by
  have hstep : 0 < W - O := by omega
  have hstepW : W - O ≤ W := by omega
  unfold chunk_ranges pythonRangeStarts
  rw [if_neg (by omega : ¬ W - O = 0)]
  have hq := Nat.div_add_mod (n + (W - O) - 1) (W - O)
  have hr := Nat.mod_lt (n + (W - O) - 1) hstep
  set L := (n + (W - O) - 1) / (W - O) with hLdef
  have hq' : L * (W - O) + (n + (W - O) - 1) % (W - O) = n + (W - O) - 1 := by
    rw [Nat.mul_comm]; exact hq
  have hLs : n ≤ L * (W - O) := by omega
  have hL1 : 0 < L := by
    rcases Nat.eq_zero_or_pos L with h | h
    · rw [h] at hLs; simp at hLs; omega
    · exact h
  have hLstep : (L - 1) * (W - O) + (W - O) = L * (W - O) := by
    rcases L with _ | L'
    · omega
    · simp only [Nat.succ_mul, Nat.add_sub_cancel]
  have hprem : n ≤ 0 + (L - 1) * (W - O) + W := by omega
  have h := chunkLoop_range' n W (W - O) hstep L 0 hL1 hprem
  rw [h]
  have hx0 : n - W - 0 = n - W := by omega
  simp only [hx0, Nat.zero_add]

lemma chunk_ranges_count (n W O : Nat) (hO : O < W) (hW : W < n) :
    (chunk_ranges n W O).length = (n - W + (W - O) - 1) / (W - O) + 1 := by
  rw [chunk_ranges_eq n W O hO hW]
  simp

lemma chunk_ranges_K_bound (n W O : Nat) (hO : O < W) (hW : W < n) :
    ((n - W + (W - O) - 1) / (W - O) - 1) * (W - O) + W < n ∧
      0 < (n - W + (W - O) - 1) / (W - O) := by
  have hstep : 0 < W - O := by omega
  have hx : 0 < n - W := by omega
  have hK : (n - W + (W - O) - 1) / (W - O) = (n - W - 1) / (W - O) + 1 := by
    have h2 : n - W + (W - O) - 1 = (n - W - 1) + (W - O) := by omega
    rw [h2, Nat.add_div_right _ hstep]
  constructor
  · rw [hK, Nat.add_sub_cancel]
    have h4 := Nat.div_mul_le_self (n - W - 1) (W - O)
    generalize hqp : (n - W - 1) / (W - O) * (W - O) = P at h4 ⊢
    clear hqp hK
    omega
  · rw [hK]; exact Nat.succ_pos _

lemma chunk_ranges_coverage (n W O : Nat) (hO : O < W) (hW : W < n) :
    ∀ i, i < n → ∃ p ∈ chunk_ranges n W O, p.1 ≤ i ∧ i < p.2 := by
  intro i hi
  have hstep : 0 < W - O := by omega
  rw [chunk_ranges_eq n W O hO hW]
  rcases le_or_lt ((n - W + (W - O) - 1) / (W - O) * (W - O)) i with h | h
  · exact ⟨((n - W + (W - O) - 1) / (W - O) * (W - O), n),
      List.mem_append_right _ (by simp), h, hi⟩
  · refine ⟨(i / (W - O) * (W - O), i / (W - O) * (W - O) + W),
      List.mem_append_left _ (List.mem_map.mpr
        ⟨i / (W - O), List.mem_range.mpr ((Nat.div_lt_iff_lt_mul hstep).mpr h),
          rfl⟩), Nat.div_mul_le_self i (W - O), ?_⟩
    have hdm : i / (W - O) * (W - O) + i % (W - O) = i := by
      rw [Nat.mul_comm]
      exact Nat.div_add_mod i (W - O)
    have hmod : i % (W - O) < W - O := Nat.mod_lt i hstep
    generalize hP : i / (W - O) * (W - O) = P at hdm ⊢
    generalize hM : i % (W - O) = M at hdm hmod
    clear hP hM
    omega

lemma chunk_ranges_chain (n W O : Nat) (hO : O < W) (hW : W < n) :
    List.Chain' (fun p q : Nat × Nat =>
      q.1 ≤ p.2 ∧ p.2 - q.1 = O ∧ p.1 < q.1 ∧ p.2 < q.2) (chunk_ranges n W O) := by
  have hstep : 0 < W - O := by omega
  obtain ⟨hbound, hKpos⟩ := chunk_ranges_K_bound n W O hO hW
  rw [chunk_ranges_eq n W O hO hW]
  obtain ⟨K', hK'⟩ : ∃ K', (n - W + (W - O) - 1) / (W - O) = K' + 1 :=
    ⟨(n - W + (W - O) - 1) / (W - O) - 1, by omega⟩
  rw [hK'] at hbound ⊢
  rw [Nat.add_sub_cancel] at hbound
  rw [List.chain'_append]
  refine ⟨?_, List.chain'_singleton _, ?_⟩
  · rw [List.chain'_map, List.chain'_range_succ]
    intro m hm
    have hsm : Nat.succ m * (W - O) = m * (W - O) + (W - O) := Nat.succ_mul m (W - O)
    generalize hA : m * (W - O) = A at hsm
    generalize hB : Nat.succ m * (W - O) = B at hsm
    exact ⟨by omega, by omega, by omega, by omega⟩
  · intro x hx y hy
    simp only [List.range_succ, List.map_append, List.map_cons, List.map_nil,
      List.getLast?_concat] at hx
    simp only [Option.mem_def, Option.some.injEq, List.head?_cons] at hx hy
    subst hx; subst hy
    have hsm : (K' + 1) * (W - O) = K' * (W - O) + (W - O) := Nat.succ_mul K' (W - O)
    generalize hA : K' * (W - O) = A at hsm hbound
    generalize hB : (K' + 1) * (W - O) = B at hsm
    exact ⟨by omega, by omega, by omega, by omega⟩

lemma chunk_ranges_getLast (n W O : Nat) (hO : O < W) (hW : W < n) :
    (chunk_ranges n W O).getLast?.map Prod.snd = some n := by
  rw [chunk_ranges_eq n W O hO hW, List.getLast?_concat]
  rfl

lemma chunk_ranges_dropLast (n W O : Nat) (hO : O < W) (hW : W < n) :
    ∀ p ∈ (chunk_ranges n W O).dropLast, p.2 < n := by
  obtain ⟨hbound, hKpos⟩ := chunk_ranges_K_bound n W O hO hW
  rw [chunk_ranges_eq n W O hO hW, List.dropLast_concat]
  intro p hp
  obtain ⟨k, hk, rfl⟩ := List.mem_map.mp hp
  have hkK : k < (n - W + (W - O) - 1) / (W - O) := List.mem_range.mp hk
  have hmul : k * (W - O) ≤ ((n - W + (W - O) - 1) / (W - O) - 1) * (W - O) :=
    Nat.mul_le_mul_right _ (by omega)
  dsimp only
  generalize hA : k * (W - O) = A at hmul
  generalize hB : ((n - W + (W - O) - 1) / (W - O) - 1) * (W - O) = B at hmul hbound
  clear hA hB hkK
  omega

lemma chunk_ranges_nonempty_windows (n W O : Nat) (hO : O < W) (hW : W < n) :
    ∀ p ∈ chunk_ranges n W O, p.1 < p.2 := by
  obtain ⟨hbound, hKpos⟩ := chunk_ranges_K_bound n W O hO hW
  rw [chunk_ranges_eq n W O hO hW]
  intro p hp
  rcases List.mem_append.mp hp with h | h
  · obtain ⟨k, hk, rfl⟩ := List.mem_map.mp h
    dsimp only
    omega
  · rw [List.mem_singleton] at h
    subst h
    dsimp only
    obtain ⟨K', hK'⟩ : ∃ K', (n - W + (W - O) - 1) / (W - O) = K' + 1 :=
      ⟨(n - W + (W - O) - 1) / (W - O) - 1, by omega⟩
    rw [hK'] at hbound ⊢
    rw [Nat.add_sub_cancel] at hbound
    have hsm : (K' + 1) * (W - O) = K' * (W - O) + (W - O) := Nat.succ_mul K' (W - O)
    generalize hA : K' * (W - O) = A at hsm hbound
    generalize hB : (K' + 1) * (W - O) = B at hsm ⊢
    omega

lemma insert_sentiment_key_mem (db : Db) (r : SentimentResult) :
    sentimentKey r ∈ (db.insert_sentiment r).sentiment_results.map sentimentKey := by
  unfold Db.insert_sentiment
  by_cases h : db.sentiment_results.any (fun a => sentimentKey a == sentimentKey r) = true
  · rw [if_pos h]
    obtain ⟨a, ha, hk⟩ := List.any_eq_true.mp h
    exact List.mem_map.mpr ⟨a, ha, by simpa using hk⟩
  · rw [if_neg h]
    simp

lemma insert_emotion_key_mem (db : Db) (r : EmotionResult) :
    emotionKey r ∈ (db.insert_emotion r).emotion_results.map emotionKey := by
  unfold Db.insert_emotion
  by_cases h : db.emotion_results.any (fun a => emotionKey a == emotionKey r) = true
  · rw [if_pos h]
    obtain ⟨a, ha, hk⟩ := List.any_eq_true.mp h
    exact List.mem_map.mpr ⟨a, ha, by simpa using hk⟩
  · rw [if_neg h]
    simp

lemma get_unanalyzed_excludes (sources : List SourceRow)
    (keys : List (String × Nat × String)) (st m : String) (i : Nat)
    (hkey : (st, i, m) ∈ keys) :
    ∀ s ∈ get_unanalyzed sources keys st m, s.id ≠ i := by
  intro s hs hid
  rw [get_unanalyzed, List.mem_filter] at hs
  obtain ⟨-, hpred⟩ := hs
  rw [Bool.not_eq_true'] at hpred
  have := List.any_eq_false.mp hpred (st, i, m) hkey
  simp [hid] at this

/-- C2 (counterexample): the checkpoint overwrite is not atomic.  Saving
cursor 5 / visited [a, b] over an existing checkpoint (cursor 3, no
visited) passes through the truncated-file state, which is neither the
old nor the new checkpoint, and a load from that state fails (the
`open(path, "w")` in `_save_checkpoint` truncates before `json.dump`
writes). -/
theorem checkpoint_save_not_atomic :
    (_save_checkpoint (some (CheckpointFile.json 3 [] 0 0)) 5 ["a", "b"] 0 7).get? 1
        = some (some CheckpointFile.empty) ∧
    some CheckpointFile.empty ≠ some (CheckpointFile.json 3 [] 0 0) ∧
    some CheckpointFile.empty ≠ some (CheckpointFile.json 5 ["a", "b"] 0 7) ∧
    _load_checkpoint (some CheckpointFile.empty) 9 = none := by
  refine ⟨rfl, by decide, by decide, rfl⟩

/-- C2 (amended): a completed `_save_checkpoint` followed by
`_load_checkpoint` returns exactly the saved cursor and visited set (the
final on-disk state of the save trace is the full new checkpoint, and
loading it recovers cursor and visited unchanged); the overwrite is not
atomic, since the save trace passes through a truncated intermediate
state (see the counterexample). -/
theorem checkpoint_roundtrip_amended :
    ∀ (file : Option CheckpointFile) (cursor : Nat) (visited : List String)
      (started now now2 : Nat),
      (_save_checkpoint file cursor visited started now).getLast?
          = some (some (CheckpointFile.json cursor visited started now)) ∧
      _load_checkpoint (some (CheckpointFile.json cursor visited started now)) now2
          = some (cursor, visited, started, now) := by
  intro file cursor visited started now now2
  exact ⟨rfl, rfl⟩

/-- C9: `aggregate_sentiment` and `aggregate_emotions` are safe exactly on
nonempty input: the empty list reaches the division-by-zero branch
(modelled as `none`, the ZeroDivisionError of `sum(...) / n` with
`n = 0`), and every nonempty list produces a result. -/
theorem aggregate_empty_division_guard :
    (∀ (st : String) (sid : Nat) (m : String) (now : Nat),
      aggregate_sentiment [] st sid m now = none ∧
      aggregate_emotions [] st sid m now = none) ∧
    (∀ (results : List SentimentResult) (st : String) (sid : Nat)
        (m : String) (now : Nat), results ≠ [] →
      ∃ r, aggregate_sentiment results st sid m now = some r) ∧
    (∀ (results : List EmotionResult) (st : String) (sid : Nat)
        (m : String) (now : Nat), results ≠ [] →
      ∃ r, aggregate_emotions results st sid m now = some r) := by
  refine ⟨fun st sid m now => ⟨rfl, rfl⟩, ?_, ?_⟩
  · intro results st sid m now hne
    cases results with
    | nil => exact absurd rfl hne
    | cons a as => exact ⟨_, rfl⟩
  · intro results st sid m now hne
    cases results with
    | nil => exact absurd rfl hne
    | cons a as => exact ⟨_, rfl⟩

/-- C9 witness at a concrete nonempty input. -/
theorem aggregate_empty_division_guard_witness :
    (aggregate_sentiment [] "blog" 1 "model-X" 0 = none) ∧
    ∃ r, aggregate_sentiment [sentResultX] "blog" 1 "model-X" 0 = some r :=
  ⟨(aggregate_empty_division_guard.1 "blog" 1 "model-X" 0).1,
    aggregate_empty_division_guard.2.1 [sentResultX] "blog" 1 "model-X" 0
      (List.cons_ne_nil _ _)⟩

/-- C5: for every nonempty chunk-result list, both aggregators return the
unweighted arithmetic mean of each label's scores, and the selected
dominant label is a first-maximal label of the means: its mean is maximal
and every label declared before it in the fixed label order (positive,
negative, neutral; anger, disgust, fear, joy, neutral, sadness,
surprise) has a strictly smaller mean. -/
theorem aggregate_mean_and_first_max :
    (∀ (results : List SentimentResult) (st : String) (sid : Nat)
        (m : String) (now : Nat), results ≠ [] →
      ∃ r, aggregate_sentiment results st sid m now = some r ∧
        r.positive_score
            = (results.map (fun x => x.positive_score)).sum / (results.length : ℚ) ∧
        r.negative_score
            = (results.map (fun x => x.negative_score)).sum / (results.length : ℚ) ∧
        r.neutral_score
            = (results.map (fun x => x.neutral_score)).sum / (results.length : ℚ) ∧
        ∃ v, IsFirstMax
          [("positive", r.positive_score), ("negative", r.negative_score),
            ("neutral", r.neutral_score)] (r.label, v)) ∧
    (∀ (results : List EmotionResult) (st : String) (sid : Nat)
        (m : String) (now : Nat), results ≠ [] →
      ∃ r, aggregate_emotions results st sid m now = some r ∧
        r.anger_score
            = (results.map (fun x => x.anger_score)).sum / (results.length : ℚ) ∧
        r.disgust_score
            = (results.map (fun x => x.disgust_score)).sum / (results.length : ℚ) ∧
        r.fear_score
            = (results.map (fun x => x.fear_score)).sum / (results.length : ℚ) ∧
        r.joy_score
            = (results.map (fun x => x.joy_score)).sum / (results.length : ℚ) ∧
        r.neutral_score
            = (results.map (fun x => x.neutral_score)).sum / (results.length : ℚ) ∧
        r.sadness_score
            = (results.map (fun x => x.sadness_score)).sum / (results.length : ℚ) ∧
        r.surprise_score
            = (results.map (fun x => x.surprise_score)).sum / (results.length : ℚ) ∧
        ∃ v, IsFirstMax
          [("anger", r.anger_score), ("disgust", r.disgust_score),
            ("fear", r.fear_score), ("joy", r.joy_score),
            ("neutral", r.neutral_score), ("sadness", r.sadness_score),
            ("surprise", r.surprise_score)] (r.dominant_emotion, v)) := by
  constructor
  · intro results st sid m now hne
    cases results with
    | nil => exact absurd rfl hne
    | cons a as =>
      obtain ⟨v, hkey, hfm⟩ := pyMaxKey_isFirstMax
        ("positive", ((a :: as).map (fun x => x.positive_score)).sum / (((a :: as).length : ℚ)))
        [("negative", ((a :: as).map (fun x => x.negative_score)).sum / (((a :: as).length : ℚ))),
         ("neutral", ((a :: as).map (fun x => x.neutral_score)).sum / (((a :: as).length : ℚ)))]
      exact ⟨_, rfl, rfl, rfl, rfl, v, hfm⟩
  · intro results st sid m now hne
    cases results with
    | nil => exact absurd rfl hne
    | cons a as =>
      obtain ⟨v, hkey, hfm⟩ := pyMaxKey_isFirstMax
        ("anger", ((a :: as).map (fun x => x.anger_score)).sum / (((a :: as).length : ℚ)))
        [("disgust", ((a :: as).map (fun x => x.disgust_score)).sum / (((a :: as).length : ℚ))),
         ("fear", ((a :: as).map (fun x => x.fear_score)).sum / (((a :: as).length : ℚ))),
         ("joy", ((a :: as).map (fun x => x.joy_score)).sum / (((a :: as).length : ℚ))),
         ("neutral", ((a :: as).map (fun x => x.neutral_score)).sum / (((a :: as).length : ℚ))),
         ("sadness", ((a :: as).map (fun x => x.sadness_score)).sum / (((a :: as).length : ℚ))),
         ("surprise", ((a :: as).map (fun x => x.surprise_score)).sum / (((a :: as).length : ℚ)))]
      exact ⟨_, rfl, rfl, rfl, rfl, rfl, rfl, rfl, rfl, v, hfm⟩

/-- C5 witness at the spec's concrete example: chunk scores 0.8/0.2 and
0.4/0.6 aggregate to means 0.6/0.4 and the 0.6 label is dominant. -/
theorem aggregate_mean_and_first_max_witness :
    (∃ r, aggregate_sentiment [chunkRes1, chunkRes2] "blog" 1 "m" 0 = some r ∧
      r.positive_score
          = ([chunkRes1, chunkRes2].map (fun x => x.positive_score)).sum
              / (([chunkRes1, chunkRes2].length : ℚ)) ∧
      r.negative_score
          = ([chunkRes1, chunkRes2].map (fun x => x.negative_score)).sum
              / (([chunkRes1, chunkRes2].length : ℚ)) ∧
      r.neutral_score
          = ([chunkRes1, chunkRes2].map (fun x => x.neutral_score)).sum
              / (([chunkRes1, chunkRes2].length : ℚ)) ∧
      ∃ v, IsFirstMax
        [("positive", r.positive_score), ("negative", r.negative_score),
          ("neutral", r.neutral_score)] (r.label, v)) ∧
    ([chunkRes1, chunkRes2].map (fun x => x.positive_score)).sum
        / (([chunkRes1, chunkRes2].length : ℚ)) = 3/5 ∧
    ([chunkRes1, chunkRes2].map (fun x => x.negative_score)).sum
        / (([chunkRes1, chunkRes2].length : ℚ)) = 2/5 ∧
    (aggregate_sentiment [chunkRes1, chunkRes2] "blog" 1 "m" 0).map
        (fun r => r.label) = some "positive" := by
  refine ⟨aggregate_mean_and_first_max.1 [chunkRes1, chunkRes2] "blog" 1 "m" 0
    (List.cons_ne_nil _ _), ?_, ?_, ?_⟩
  · norm_num [chunkRes1, chunkRes2]
  · norm_num [chunkRes1, chunkRes2]
  · norm_num [aggregate_sentiment, pyMaxKey, pyMaxFold, pyMaxStep,
      chunkRes1, chunkRes2]

/-- C6 (counterexample): aggregating a one-element list does NOT return
the element's label unchanged — `aggregate_sentiment` recomputes the
label from the scores, so a record labelled "negative" whose positive
score is highest comes back labelled "positive". -/
theorem aggregate_single_relabels :
    relabelInput.label = "negative" ∧
    (aggregate_sentiment [relabelInput] "blog" 1 "m" 0).map (fun r => r.label)
        = some "positive" := by
  refine ⟨rfl, ?_⟩
  norm_num [aggregate_sentiment, pyMaxKey, pyMaxFold, pyMaxStep, relabelInput]

/-- C6 (amended): when chunking yields exactly one chunk, `_analyze_rows`
stores that chunk's result passed through entirely unchanged (the
length-1 branch returns the element itself, no averaging).  Aggregating
a one-element list returns the element's three scores unchanged, but
recomputes the label as the first-maximal label of those scores rather
than passing the stored label through. -/
theorem single_chunk_passthrough_amended :
    (∀ (r : SentimentResult) (st : String) (sid : Nat) (m : String) (now : Nat),
      selectSentimentResult [r] st sid m now = some r) ∧
    (∀ (r : EmotionResult) (st : String) (sid : Nat) (m : String) (now : Nat),
      selectEmotionResult [r] st sid m now = some r) ∧
    (∀ (r : SentimentResult) (st : String) (sid : Nat) (m : String) (now : Nat),
      ∃ r2, aggregate_sentiment [r] st sid m now = some r2 ∧
        r2.positive_score = r.positive_score ∧
        r2.negative_score = r.negative_score ∧
        r2.neutral_score = r.neutral_score ∧
        r2.label = pyMaxKey ("positive", r2.positive_score)
          [("negative", r2.negative_score), ("neutral", r2.neutral_score)]) := by
  refine ⟨fun r st sid m now => rfl, fun r st sid m now => rfl, ?_⟩
  intro r st sid m now
  refine ⟨_, rfl, ?_, ?_, ?_, rfl⟩ <;> simp

/-- C3: with overlap O < window W, a text of N ≤ W tokens is returned
unchanged as a single-element list; for N > W the chunks are the slices
of the chunk token ranges, which cover [0, N) with no gap and in which
each pair of adjacent windows shares exactly O tokens (the next window
starts O tokens before the previous one ends, and windows are strictly
increasing in both endpoints, so the shared region has size exactly O). -/
theorem chunk_text_coverage_spec (tokens : List Nat) (W O : Nat) (hO : O < W) :
    (tokens.length ≤ W → chunk_text tokens W O = [tokens]) ∧
    (W < tokens.length →
      chunk_text tokens W O =
        (chunk_ranges tokens.length W O).map
          (fun p => (tokens.drop p.1).take (p.2 - p.1)) ∧
      (∀ i, i < tokens.length →
        ∃ p ∈ chunk_ranges tokens.length W O, p.1 ≤ i ∧ i < p.2) ∧
      List.Chain' (fun p q => q.1 ≤ p.2 ∧ p.2 - q.1 = O ∧ p.1 < q.1 ∧ p.2 < q.2)
        (chunk_ranges tokens.length W O)) := by
  constructor
  · intro h
    simp [chunk_text, h]
  · intro h
    refine ⟨?_, chunk_ranges_coverage tokens.length W O hO h,
      chunk_ranges_chain tokens.length W O hO h⟩
    simp [chunk_text, Nat.not_le.mpr h]

/-- C3 witness: 10 tokens, window 4, overlap 1; token 9 is covered. -/
theorem chunk_text_coverage_spec_witness :
    (1 : Nat) < 4 ∧ 4 < (List.range 10).length ∧
    ∃ p ∈ chunk_ranges (List.range 10).length 4 1, p.1 ≤ 9 ∧ 9 < p.2 :=
  ⟨by decide, by decide,
    ((chunk_text_coverage_spec (List.range 10) 4 1 (by decide)).2
      (by decide)).2.1 9 (by decide)⟩

/-- C4: for N > W tokens (O < W) `chunk_text` produces exactly
ceil((N − W)/(W − O)) + 1 chunks; the final window is clipped to the true
sequence end N, every non-final window ends strictly before N (the loop
breaks at the first window that reaches the end, so there is no trailing
duplicate), and no window is empty. -/
theorem chunk_text_count_spec (tokens : List Nat) (W O : Nat)
    (hO : O < W) (hW : W < tokens.length) :
    (chunk_text tokens W O).length
        = (tokens.length - W + (W - O) - 1) / (W - O) + 1 ∧
    (chunk_ranges tokens.length W O).getLast?.map Prod.snd = some tokens.length ∧
    (∀ p ∈ (chunk_ranges tokens.length W O).dropLast, p.2 < tokens.length) ∧
    (∀ p ∈ chunk_ranges tokens.length W O, p.1 < p.2) := by
  refine ⟨?_, chunk_ranges_getLast tokens.length W O hO hW,
    chunk_ranges_dropLast tokens.length W O hO hW,
    chunk_ranges_nonempty_windows tokens.length W O hO hW⟩
  have hmap : chunk_text tokens W O =
      (chunk_ranges tokens.length W O).map
        (fun p => (tokens.drop p.1).take (p.2 - p.1)) := by
    simp [chunk_text, Nat.not_le.mpr hW]
  rw [hmap, List.length_map]
  exact chunk_ranges_count tokens.length W O hO hW

/-- C4 witness: 10 tokens, window 4, overlap 1 yield
ceil((10−4)/3) + 1 = 3 chunks. -/
theorem chunk_text_count_spec_witness :
    (1 : Nat) < 4 ∧ 4 < (List.range 10).length ∧
    (chunk_text (List.range 10) 4 1).length
        = ((List.range 10).length - 4 + (4 - 1) - 1) / (4 - 1) + 1 ∧
    (chunk_text (List.range 10) 4 1).length = 3 :=
  ⟨by decide, by decide,
    (chunk_text_count_spec (List.range 10) 4 1 (by decide) (by decide)).1,
    by decide⟩

lemma listContainsSub_iff_occurs (p l : List Char) :
    listContainsSub p l = true ↔ p <:+: l := by
  induction l with
  | nil =>
    simp [listContainsSub, List.isEmpty_iff]
  | cons x xs ih =>
    simp [listContainsSub, List.isPrefixOf_iff_prefix, ih, List.infix_cons_iff]

lemma flushTurn_some (interviewer sp : List Char) (parts : List (List Char))
    (seg : Segment) (h : flushTurn interviewer (some sp) parts = some seg) :
    20 < seg.text.length ∧
      seg.speaker = (if isInterviewerTurn interviewer sp
        then "interviewer" else "astronaut") := by
  rw [flushTurn] at h
  by_cases hp : parts.isEmpty
  · rw [if_pos hp] at h
    exact absurd h (by simp)
  · rw [if_neg hp] at h
    by_cases hlen :
        20 < (collapseWS (pyStrip (List.intercalate [' '] parts))).length
    · rw [if_pos hlen] at h
      obtain rfl := Option.some.inj h
      exact ⟨hlen, rfl⟩
    · rw [if_neg hlen] at h
      exact absurd h (by simp)

lemma flushTurn_length (interviewer : List Char) (cs : Option (List Char))
    (parts : List (List Char)) (seg : Segment)
    (h : flushTurn interviewer cs parts = some seg) : 20 < seg.text.length := by
  cases cs with
  | none => exact absurd h (by simp [flushTurn])
  | some sp => exact (flushTurn_some interviewer sp parts seg h).1

lemma segLoop_min_length (interviewer : List Char) :
    ∀ (lines : List (List Char)) (cs : Option (List Char))
      (parts : List (List Char)) (seg : Segment),
      seg ∈ segLoop interviewer lines cs parts → 20 < seg.text.length := by
  intro lines
  induction lines with
  | nil =>
    intro cs parts seg h
    rw [segLoop] at h
    cases hf : flushTurn interviewer cs parts with
    | none => rw [hf] at h; simp at h
    | some s =>
      rw [hf] at h
      simp only [Option.toList_some, List.mem_singleton] at h
      subst h
      exact flushTurn_length interviewer cs parts seg hf
  | cons line rest ih =>
    intro cs parts seg h
    rw [segLoop] at h
    cases hm : matchSpeaker line with
    | some nr =>
      rw [hm] at h
      obtain ⟨name, remainder⟩ := nr
      rcases List.mem_append.mp h with h1 | h1
      · cases hf : flushTurn interviewer cs parts with
        | none => rw [hf] at h1; simp at h1
        | some s =>
          rw [hf] at h1
          simp only [Option.toList_some, List.mem_singleton] at h1
          subst h1
          exact flushTurn_length interviewer cs parts seg hf
      · exact ih _ _ seg h1
    | none =>
      rw [hm] at h
      by_cases hb : (pyStrip line).isEmpty
      · rw [if_pos hb] at h
        exact ih _ _ seg h
      · rw [if_neg hb] at h
        exact ih _ _ seg h

/-- C7: on the spec's sample transcript with interviewer surname Wright,
`split_segments` produces exactly two segments, the first classified
interviewer and the second astronaut; and in general a flushed turn is
classified "interviewer" if and only if the upper-cased interviewer
surname occurs as a contiguous substring of the upper-cased speaker
label (case-insensitive containment), else "astronaut". -/
theorem split_segments_example_and_roles :
    (split_segments sampleTranscript ("Wright".toList)).map (fun s => s.speaker)
        = ["interviewer", "astronaut"] ∧
    ∀ (interviewer sp : List Char) (parts : List (List Char)) (seg : Segment),
      flushTurn interviewer (some sp) parts = some seg →
      (seg.speaker = "interviewer" ↔ (pyUpper interviewer) <:+: (pyUpper sp)) := by
  constructor
  · decide
  · intro interviewer sp parts seg h
    obtain ⟨-, hsp⟩ := flushTurn_some interviewer sp parts seg h
    rw [hsp]
    by_cases hit : isInterviewerTurn interviewer sp = true
    · rw [if_pos hit]
      simp only [true_iff]
      exact (listContainsSub_iff_occurs _ _).mp hit
    · rw [if_neg hit]
      constructor
      · intro hcontra
        exact absurd hcontra (by decide)
      · intro hinf
        exact absurd ((listContainsSub_iff_occurs _ _).mpr hinf) hit

/-- C7 witness: a concrete flush of a WRIGHT turn is classified
interviewer exactly because "WRIGHT" contains "Wright" case-insensitively. -/
theorem split_segments_roles_witness :
    interviewerSeg.speaker = "interviewer" ↔
      (pyUpper ("Wright".toList)) <:+: (pyUpper ("WRIGHT".toList)) :=
  split_segments_example_and_roles.2 ("Wright".toList) ("WRIGHT".toList)
    [("Hello there my good friend").toList] interviewerSeg (by decide)

/-- C8: every segment emitted by `split_segments` has whitespace-normalized
text strictly longer than 20 characters; flushed turns at or under 20
characters are discarded, whether closed by a new speaker line or by end
of input. -/
theorem split_segments_min_length :
    ∀ (text interviewer : List Char) (seg : Segment),
      seg ∈ split_segments text interviewer → 20 < seg.text.length :=
  fun text interviewer seg h =>
    segLoop_min_length interviewer (splitLines text) none [] seg h

/-- C8 witness: the first segment of the sample transcript is emitted and
its normalized text has more than 20 characters. -/
theorem split_segments_min_length_witness :
    Segment.mk "interviewer" (("Hi there, how are you doing today?").toList)
        ∈ split_segments sampleTranscript ("Wright".toList) ∧
    20 < (Segment.mk "interviewer"
        (("Hi there, how are you doing today?").toList)).text.length :=
  ⟨by decide, split_segments_min_length sampleTranscript ("Wright".toList) _
    (by decide)⟩

lemma insert_sentiment_idem (db : Db) (r r2 : SentimentResult)
    (h : sentimentKey r2 = sentimentKey r) :
    (db.insert_sentiment r).insert_sentiment r2 = db.insert_sentiment r := by
  have hany : (db.insert_sentiment r).sentiment_results.any
      (fun a => sentimentKey a == sentimentKey r2) = true := by
    apply List.any_eq_true.mpr
    obtain ⟨a, ha, hk⟩ := List.mem_map.mp (insert_sentiment_key_mem db r)
    exact ⟨a, ha, by simp [hk, h]⟩
  conv_lhs => rw [Db.insert_sentiment]
  rw [if_pos hany]

lemma insert_emotion_idem (db : Db) (r r2 : EmotionResult)
    (h : emotionKey r2 = emotionKey r) :
    (db.insert_emotion r).insert_emotion r2 = db.insert_emotion r := by
  have hany : (db.insert_emotion r).emotion_results.any
      (fun a => emotionKey a == emotionKey r2) = true := by
    apply List.any_eq_true.mpr
    obtain ⟨a, ha, hk⟩ := List.mem_map.mp (insert_emotion_key_mem db r)
    exact ⟨a, ha, by simp [hk, h]⟩
  conv_lhs => rw [Db.insert_emotion]
  rw [if_pos hany]

/-- C1: once `insert_sentiment` (resp. `insert_emotion`) has stored a
result for a key (source_type, source_id, model_name), the unprocessed
query for that source_type and model never returns the source row with
that id again — the state is pure data, so this holds across process
restarts — and repeating an insert with the same key leaves the table
unchanged: no second row is stored and no error is raised (INSERT OR
IGNORE). -/
theorem dedup_gate_excludes_and_idempotent :
    (∀ (db : Db) (sources : List SourceRow) (r : SentimentResult) (s : SourceRow),
      (s ∈ get_unanalyzed sources
          ((db.insert_sentiment r).sentiment_results.map sentimentKey)
          r.source_type r.model_name → s.id ≠ r.source_id) ∧
      ∀ r2 : SentimentResult, sentimentKey r2 = sentimentKey r →
        (db.insert_sentiment r).insert_sentiment r2 = db.insert_sentiment r) ∧
    (∀ (db : Db) (sources : List SourceRow) (r : EmotionResult) (s : SourceRow),
      (s ∈ get_unanalyzed sources
          ((db.insert_emotion r).emotion_results.map emotionKey)
          r.source_type r.model_name → s.id ≠ r.source_id) ∧
      ∀ r2 : EmotionResult, emotionKey r2 = emotionKey r →
        (db.insert_emotion r).insert_emotion r2 = db.insert_emotion r) := by
  constructor
  · intro db sources r s
    refine ⟨?_, fun r2 h => insert_sentiment_idem db r r2 h⟩
    intro hs
    exact get_unanalyzed_excludes sources _ r.source_type r.model_name
      r.source_id (insert_sentiment_key_mem db r) s hs
  · intro db sources r s
    refine ⟨?_, fun r2 h => insert_emotion_idem db r r2 h⟩
    intro hs
    exact get_unanalyzed_excludes sources _ r.source_type r.model_name
      r.source_id (insert_emotion_key_mem db r) s hs

/-- C1 witness: after inserting a result for (blog, 1, model-X) into an
empty database, row 2 is still unprocessed and its id differs from the
inserted key's id, and repeating the insert is a no-op. -/
theorem dedup_gate_witness :
    blogRow2.id ≠ sentResultX.source_id ∧
    ((Db.mk [] [] []).insert_sentiment sentResultX).insert_sentiment sentResultX
        = (Db.mk [] [] []).insert_sentiment sentResultX :=
  ⟨(dedup_gate_excludes_and_idempotent.1 (Db.mk [] [] [])
      [blogRow1, blogRow2] sentResultX blogRow2).1 (by decide),
    (dedup_gate_excludes_and_idempotent.1 (Db.mk [] [] [])
      [] sentResultX blogRow2).2 sentResultX rfl⟩

lemma mem_insert_sentiment_results (db : Db) (r x : SentimentResult)
    (h : x ∈ (db.insert_sentiment r).sentiment_results) :
    x ∈ db.sentiment_results ∨ x = r := by
  rw [Db.insert_sentiment] at h
  split at h
  · exact Or.inl h
  · rcases List.mem_append.mp h with h1 | h1
    · exact Or.inl h1
    · exact Or.inr (List.mem_singleton.mp h1)

lemma mem_insert_emotion_results (db : Db) (r x : EmotionResult)
    (h : x ∈ (db.insert_emotion r).emotion_results) :
    x ∈ db.emotion_results ∨ x = r := by
  rw [Db.insert_emotion] at h
  split at h
  · exact Or.inl h
  · rcases List.mem_append.mp h with h1 | h1
    · exact Or.inl h1
    · exact Or.inr (List.mem_singleton.mp h1)

lemma mem_insert_linguistic_results (db : Db) (r x : LinguisticRow)
    (h : x ∈ (db.insert_linguistic r).linguistic_features) :
    x ∈ db.linguistic_features ∨ x = r := by
  rw [Db.insert_linguistic] at h
  split at h
  · exact Or.inl h
  · rcases List.mem_append.mp h with h1 | h1
    · exact Or.inl h1
    · exact Or.inr (List.mem_singleton.mp h1)

lemma insert_sentiment_other_tables (db : Db) (r : SentimentResult) :
    (db.insert_sentiment r).emotion_results = db.emotion_results ∧
    (db.insert_sentiment r).linguistic_features = db.linguistic_features := by
  rw [Db.insert_sentiment]
  split <;> exact ⟨rfl, rfl⟩

lemma insert_emotion_other_tables (db : Db) (r : EmotionResult) :
    (db.insert_emotion r).sentiment_results = db.sentiment_results ∧
    (db.insert_emotion r).linguistic_features = db.linguistic_features := by
  rw [Db.insert_emotion]
  split <;> exact ⟨rfl, rfl⟩

lemma insert_linguistic_other_tables (db : Db) (r : LinguisticRow) :
    (db.insert_linguistic r).sentiment_results = db.sentiment_results ∧
    (db.insert_linguistic r).emotion_results = db.emotion_results := by
  rw [Db.insert_linguistic]
  split <;> exact ⟨rfl, rfl⟩

lemma selectSentimentResult_fields (chunk_results : List SentimentResult)
    (st : String) (sid : Nat) (m : String) (now : Nat) (res : SentimentResult)
    (hall : ∀ c ∈ chunk_results, c.source_type = st ∧ c.source_id = sid)
    (h : selectSentimentResult chunk_results st sid m now = some res) :
    res.source_type = st ∧ res.source_id = sid := by
  rw [selectSentimentResult] at h
  split at h
  · cases chunk_results with
    | nil => simp at h
    | cons a as =>
      simp only [List.head?_cons, Option.some.injEq] at h
      subst h
      exact hall a (by simp)
  · cases chunk_results with
    | nil => simp [aggregate_sentiment] at h
    | cons a as =>
      obtain rfl := Option.some.inj h
      exact ⟨rfl, rfl⟩

lemma selectEmotionResult_fields (chunk_results : List EmotionResult)
    (st : String) (sid : Nat) (m : String) (now : Nat) (res : EmotionResult)
    (hall : ∀ c ∈ chunk_results, c.source_type = st ∧ c.source_id = sid)
    (h : selectEmotionResult chunk_results st sid m now = some res) :
    res.source_type = st ∧ res.source_id = sid := by
  rw [selectEmotionResult] at h
  split at h
  · cases chunk_results with
    | nil => simp at h
    | cons a as =>
      simp only [List.head?_cons, Option.some.injEq] at h
      subst h
      exact hall a (by simp)
  · cases chunk_results with
    | nil => simp [aggregate_emotions] at h
    | cons a as =>
      obtain rfl := Option.some.inj h
      exact ⟨rfl, rfl⟩

lemma sentimentStage_provenance (encode : String → List Nat)
    (sentOracle : List Nat → Option (ℚ × ℚ × ℚ)) (sent_model : String)
    (now : Nat) (st : String) (db : Db) (row : SourceRow) :
    (∀ x ∈ (sentimentStage encode sentOracle sent_model now st db row).sentiment_results,
        x ∈ db.sentiment_results ∨ (x.source_type = st ∧ x.source_id = row.id)) ∧
    (sentimentStage encode sentOracle sent_model now st db row).emotion_results
        = db.emotion_results ∧
    (sentimentStage encode sentOracle sent_model now st db row).linguistic_features
        = db.linguistic_features := by
  rw [sentimentStage]
  cases hm : (chunk_text (encode row.text) 400 100).mapM sentOracle with
  | none => exact ⟨fun x hx => Or.inl hx, rfl, rfl⟩
  | some scores =>
    dsimp only
    cases hs : selectSentimentResult
        (scores.map (fun s =>
          mkSentimentFromScores s.1 s.2.1 s.2.2 st row.id sent_model now))
        st row.id sent_model now with
    | none => exact ⟨fun x hx => Or.inl hx, rfl, rfl⟩
    | some res =>
      have hres : res.source_type = st ∧ res.source_id = row.id := by
        apply selectSentimentResult_fields _ st row.id sent_model now res _ hs
        intro c hc
        obtain ⟨s, -, rfl⟩ := List.mem_map.mp hc
        exact ⟨rfl, rfl⟩
      refine ⟨?_, (insert_sentiment_other_tables db res).1,
        (insert_sentiment_other_tables db res).2⟩
      intro x hx
      rcases mem_insert_sentiment_results db res x hx with h1 | h1
      · exact Or.inl h1
      · subst h1
        exact Or.inr hres

lemma emotionStage_provenance (encode : String → List Nat)
    (emoOracle : List Nat → Option Scores7) (emo_model : String)
    (now : Nat) (st : String) (db : Db) (row : SourceRow) :
    (∀ x ∈ (emotionStage encode emoOracle emo_model now st db row).emotion_results,
        x ∈ db.emotion_results ∨ (x.source_type = st ∧ x.source_id = row.id)) ∧
    (emotionStage encode emoOracle emo_model now st db row).sentiment_results
        = db.sentiment_results ∧
    (emotionStage encode emoOracle emo_model now st db row).linguistic_features
        = db.linguistic_features := by
  rw [emotionStage]
  cases hm : (chunk_text (encode row.text) 400 100).mapM emoOracle with
  | none => exact ⟨fun x hx => Or.inl hx, rfl, rfl⟩
  | some scores =>
    dsimp only
    cases hs : selectEmotionResult
        (scores.map (fun s => mkEmotionFromScores s st row.id emo_model now))
        st row.id emo_model now with
    | none => exact ⟨fun x hx => Or.inl hx, rfl, rfl⟩
    | some res =>
      have hres : res.source_type = st ∧ res.source_id = row.id := by
        apply selectEmotionResult_fields _ st row.id emo_model now res _ hs
        intro c hc
        obtain ⟨s, -, rfl⟩ := List.mem_map.mp hc
        exact ⟨rfl, rfl⟩
      refine ⟨?_, (insert_emotion_other_tables db res).1,
        (insert_emotion_other_tables db res).2⟩
      intro x hx
      rcases mem_insert_emotion_results db res x hx with h1 | h1
      · exact Or.inl h1
      · subst h1
        exact Or.inr hres

lemma linguisticStage_provenance (lingOk : String → Bool) (st : String)
    (db : Db) (row : SourceRow) :
    (∀ x ∈ (linguisticStage lingOk st db row).linguistic_features,
        x ∈ db.linguistic_features ∨ (x.source_type = st ∧ x.source_id = row.id)) ∧
    (linguisticStage lingOk st db row).sentiment_results = db.sentiment_results ∧
    (linguisticStage lingOk st db row).emotion_results = db.emotion_results := by
  rw [linguisticStage]
  split
  · refine ⟨?_, (insert_linguistic_other_tables db _).1,
      (insert_linguistic_other_tables db _).2⟩
    intro x hx
    rcases mem_insert_linguistic_results db _ x hx with h1 | h1
    · exact Or.inl h1
    · subst h1
      exact Or.inr ⟨rfl, rfl⟩
  · exact ⟨fun x hx => Or.inl hx, rfl, rfl⟩

lemma analyze_row_provenance (encode : String → List Nat)
    (sentOracle : List Nat → Option (ℚ × ℚ × ℚ))
    (emoOracle : List Nat → Option Scores7) (lingOk : String → Bool)
    (sent_model emo_model : String) (now : Nat) (st : String)
    (db : Db) (row : SourceRow) :
    (∀ x ∈ (analyze_row encode sentOracle emoOracle lingOk sent_model emo_model
        now st db row).sentiment_results,
      x ∈ db.sentiment_results ∨ (x.source_type = st ∧ x.source_id = row.id)) ∧
    (∀ x ∈ (analyze_row encode sentOracle emoOracle lingOk sent_model emo_model
        now st db row).emotion_results,
      x ∈ db.emotion_results ∨ (x.source_type = st ∧ x.source_id = row.id)) ∧
    (∀ x ∈ (analyze_row encode sentOracle emoOracle lingOk sent_model emo_model
        now st db row).linguistic_features,
      x ∈ db.linguistic_features ∨ (x.source_type = st ∧ x.source_id = row.id)) := by
  rw [analyze_row]
  split
  · exact ⟨fun x hx => Or.inl hx, fun x hx => Or.inl hx, fun x hx => Or.inl hx⟩
  · obtain ⟨hs1, hs2, hs3⟩ := sentimentStage_provenance encode sentOracle
      sent_model now st db row
    obtain ⟨he1, he2, he3⟩ := emotionStage_provenance encode emoOracle
      emo_model now st
      (sentimentStage encode sentOracle sent_model now st db row) row
    obtain ⟨hl1, hl2, hl3⟩ := linguisticStage_provenance lingOk st
      (emotionStage encode emoOracle emo_model now st
        (sentimentStage encode sentOracle sent_model now st db row) row) row
    refine ⟨?_, ?_, ?_⟩
    · intro x hx
      rw [hl2, he2] at hx
      exact hs1 x hx
    · intro x hx
      rw [hl3] at hx
      rcases he1 x hx with h1 | h1
      · rw [hs2] at h1
        exact Or.inl h1
      · exact Or.inr h1
    · intro x hx
      rcases hl1 x hx with h1 | h1
      · rw [he3, hs3] at h1
        exact Or.inl h1
      · exact Or.inr h1

lemma analyze_rows_provenance (encode : String → List Nat)
    (sentOracle : List Nat → Option (ℚ × ℚ × ℚ))
    (emoOracle : List Nat → Option Scores7) (lingOk : String → Bool)
    (sent_model emo_model : String) (now : Nat) (st : String) :
    ∀ (rows : List SourceRow) (db : Db),
      (∀ x ∈ (analyze_rows encode sentOracle emoOracle lingOk sent_model
          emo_model now rows st db).sentiment_results,
        x ∈ db.sentiment_results
          ∨ ∃ row ∈ rows, x.source_type = st ∧ x.source_id = row.id) ∧
      (∀ x ∈ (analyze_rows encode sentOracle emoOracle lingOk sent_model
          emo_model now rows st db).emotion_results,
        x ∈ db.emotion_results
          ∨ ∃ row ∈ rows, x.source_type = st ∧ x.source_id = row.id) ∧
      (∀ x ∈ (analyze_rows encode sentOracle emoOracle lingOk sent_model
          emo_model now rows st db).linguistic_features,
        x ∈ db.linguistic_features
          ∨ ∃ row ∈ rows, x.source_type = st ∧ x.source_id = row.id) := by
  intro rows
  induction rows with
  | nil =>
    intro db
    exact ⟨fun x hx => Or.inl hx, fun x hx => Or.inl hx, fun x hx => Or.inl hx⟩
  | cons row rest ih =>
    intro db
    have hstep := analyze_row_provenance encode sentOracle emoOracle lingOk
      sent_model emo_model now st db row
    have hrest := ih (analyze_row encode sentOracle emoOracle lingOk sent_model
      emo_model now st db row)
    refine ⟨?_, ?_, ?_⟩
    · intro x hx
      rcases hrest.1 x hx with h1 | ⟨r, hr, hx2⟩
      · rcases hstep.1 x h1 with h2 | h2
        · exact Or.inl h2
        · exact Or.inr ⟨row, by simp, h2⟩
      · exact Or.inr ⟨r, by simp [hr], hx2⟩
    · intro x hx
      rcases hrest.2.1 x hx with h1 | ⟨r, hr, hx2⟩
      · rcases hstep.2.1 x h1 with h2 | h2
        · exact Or.inl h2
        · exact Or.inr ⟨row, by simp, h2⟩
      · exact Or.inr ⟨r, by simp [hr], hx2⟩
    · intro x hx
      rcases hrest.2.2 x hx with h1 | ⟨r, hr, hx2⟩
      · rcases hstep.2.2 x h1 with h2 | h2
        · exact Or.inl h2
        · exact Or.inr ⟨row, by simp, h2⟩
      · exact Or.inr ⟨r, by simp [hr], hx2⟩

/-- C10: the oral-history half of `run_analysis` filters the unprocessed
rows to those with speaker "astronaut" before `_analyze_rows` runs, so
every row fed to analysis has speaker "astronaut" and every sentiment,
emotion, or linguistic result present afterwards either predates the run
or stems from an astronaut row (its source_id is an astronaut row's id
with source_type "oral_history"); interviewer rows never produce one.
`oh_rows` ranges over arbitrary row lists, covering every
`get_unanalyzed` branch of the source. -/
theorem run_analysis_astronaut_only :
    ∀ (encode : String → List Nat) (sentOracle : List Nat → Option (ℚ × ℚ × ℚ))
      (emoOracle : List Nat → Option Scores7) (lingOk : String → Bool)
      (sent_model emo_model : String) (now : Nat)
      (oh_rows : List SourceRow) (db : Db),
      (∀ r ∈ oh_rows.filter (fun r => r.speaker == "astronaut"),
          r.speaker = "astronaut") ∧
      (∀ x ∈ (run_analysis_oral encode sentOracle emoOracle lingOk sent_model
          emo_model now oh_rows db).sentiment_results,
        x ∈ db.sentiment_results ∨
          ∃ row ∈ oh_rows, row.speaker = "astronaut" ∧
            x.source_type = "oral_history" ∧ x.source_id = row.id) ∧
      (∀ x ∈ (run_analysis_oral encode sentOracle emoOracle lingOk sent_model
          emo_model now oh_rows db).emotion_results,
        x ∈ db.emotion_results ∨
          ∃ row ∈ oh_rows, row.speaker = "astronaut" ∧
            x.source_type = "oral_history" ∧ x.source_id = row.id) ∧
      (∀ x ∈ (run_analysis_oral encode sentOracle emoOracle lingOk sent_model
          emo_model now oh_rows db).linguistic_features,
        x ∈ db.linguistic_features ∨
          ∃ row ∈ oh_rows, row.speaker = "astronaut" ∧
            x.source_type = "oral_history" ∧ x.source_id = row.id) := by
  intro encode sentOracle emoOracle lingOk sent_model emo_model now oh_rows db
  have hfilt : ∀ r ∈ oh_rows.filter (fun r => r.speaker == "astronaut"),
      r ∈ oh_rows ∧ r.speaker = "astronaut" := by
    intro r hr
    obtain ⟨h1, h2⟩ := List.mem_filter.mp hr
    exact ⟨h1, by simpa using h2⟩
  have hprov := analyze_rows_provenance encode sentOracle emoOracle lingOk
    sent_model emo_model now "oral_history"
    (oh_rows.filter (fun r => r.speaker == "astronaut")) db
  refine ⟨fun r hr => (hfilt r hr).2, ?_, ?_, ?_⟩
  · intro x hx
    rcases hprov.1 x hx with h1 | ⟨row, hrow, hx1, hx2⟩
    · exact Or.inl h1
    · exact Or.inr ⟨row, (hfilt row hrow).1, (hfilt row hrow).2, hx1, hx2⟩
  · intro x hx
    rcases hprov.2.1 x hx with h1 | ⟨row, hrow, hx1, hx2⟩
    · exact Or.inl h1
    · exact Or.inr ⟨row, (hfilt row hrow).1, (hfilt row hrow).2, hx1, hx2⟩
  · intro x hx
    rcases hprov.2.2 x hx with h1 | ⟨row, hrow, hx1, hx2⟩
    · exact Or.inl h1
    · exact Or.inr ⟨row, (hfilt row hrow).1, (hfilt row hrow).2, hx1, hx2⟩

/-- C10 witness: the linguistic result produced by a concrete run over an
interviewer row and an astronaut row stems from the astronaut row. -/
theorem run_analysis_astronaut_only_witness :
    LinguisticRow.mk "oral_history" 2 ∈ (Db.mk [] [] []).linguistic_features ∨
      ∃ row ∈ [ohRowInterviewer, ohRowAstronaut], row.speaker = "astronaut" ∧
        (LinguisticRow.mk "oral_history" 2).source_type = "oral_history" ∧
        (LinguisticRow.mk "oral_history" 2).source_id = row.id :=
  (run_analysis_astronaut_only (fun _ => [0]) noneSentOracle noneEmoOracle
    (fun _ => true) "sm" "em" 0 [ohRowInterviewer, ohRowAstronaut]
    (Db.mk [] [] [])).2.2.2 (LinguisticRow.mk "oral_history" 2) (by decide)
